import Mathlib

/-!
Verification of the vtmachine terminal state machine (`src/machine.rs`).

The machine consumes Unicode scalar values and classifies them into terminal
events.  We embed scalars as `Nat` (a Unicode scalar value), the machine state,
actions and events as inductive types, and the bounded parameter/intermediate
buffers as lists with explicit length fields mirroring the Rust arrays.
-/

/-- Modelled from the spec: the machine's character type comes from the external
`u8char` crate, which is not part of this repository, and `first_byte` is the
only operation the machine uses.  The spec treats the C1 controls U+0080–U+009F
as recognized directly by their scalar value ("extended to accept C1 controls
(0x80–0x9F) directly as entry points, operating on full Unicode scalars") and
says "The byte fields carry the first byte of the triggering scalar; for ASCII
this is the entire character".  Accordingly scalars up to U+009F stand for
themselves, and any larger scalar yields its UTF-8 lead byte, which is at least
0xC2 and therefore matches only the catch-all dispatch arms. -/
def firstByte (c : Nat) : Nat :=
  if c < 0xA0 then c
  else if c < 0x800 then 0xC0 + c / 0x40
  else if c < 0x10000 then 0xE0 + c / 0x1000
  else 0xF0 + c / 0x40000

/-- The scalar class `b'\x00'..=b'\x17' | b'\x19' | b'\x1c'..=b'\x1f'` used by
many match arms in `VtMachine::write_u8char`. -/
def isC0 (b : Nat) : Prop :=
  b ≤ 0x17 ∨ b = 0x19 ∨ (0x1c ≤ b ∧ b ≤ 0x1f)

instance (b : Nat) : Decidable (isC0 b) := by unfold isC0; infer_instance

/-- The 14 machine states (`enum State` in `src/machine.rs`). -/
inductive VtState where
  | Literal
  | Escape
  | EscapeIntermediate
  | CtrlStart
  | CtrlParam
  | CtrlIntermediate
  | CtrlMalformed
  | DevCtrlStart
  | DevCtrlParam
  | DevCtrlIntermediate
  | DevCtrlPassthru
  | DevCtrlMalformed
  | OsCmd
  | IgnoreUntilSt
deriving DecidableEq

/-- The transition actions (`enum Action` in `src/machine.rs`). -/
inductive VtAction where
  | Print
  | Execute
  | Hook
  | Put
  | OscStart
  | OscPut
  | CsiDispatch
  | EscDispatch
  | None
  | Collect
  | Param
  | Clear
  | Error
deriving DecidableEq

/-- The parameter buffer `VtParams`: a 16-element `u16` array plus a length.
The `buf` list always has 16 elements for a value built by the machine; we
carry that as a hypothesis where needed. -/
structure VtParams where
  buf : List Nat
  len : Nat
deriving DecidableEq

/-- `VtParams::new`. -/
def VtParams.new : VtParams :=
  { buf := List.replicate 16 0, len := 0 }

/-- `VtParams::push`: pushes beyond the capacity of 16 are silently ignored. -/
def VtParams.push (p : VtParams) (v : Nat) : VtParams :=
  if p.len = p.buf.length then p
  else { buf := p.buf.set p.len v, len := p.len + 1 }

/-- `VtParams::push_csi_char`.  A `u16` is embedded as a `Nat` reduced modulo
`2 ^ 16`; Rust release-profile wrapping arithmetic on `u16` becomes explicit
`% 65536`. -/
def VtParams.push_csi_char (p : VtParams) (c : Nat) : VtParams :=
  if firstByte c = 0x3B then
    p.push 0
  else
    let p1 := if p.len = 0 then p.push 0 else p
    let current := p1.buf.getD (p1.len - 1) 0
    let digit := (c + 65536 - 0x30) % 65536
    { p1 with buf := p1.buf.set (p1.len - 1) ((current * 10 % 65536 + digit) % 65536) }

/-- `VtParams::clear`. -/
def VtParams.clear (p : VtParams) : VtParams :=
  { p with len := 0 }

/-- `VtParams::values`: the view `&self.buf[..(self.len as usize)]`. -/
def VtParams.values (p : VtParams) : List Nat :=
  p.buf.take p.len

/-- The intermediate buffer `VtIntermediates`: a 2-byte array plus a length
field whose value `OVERRUN_LEN = 3` marks overrun. -/
structure VtIntermediates where
  buf : List Nat
  len : Nat
deriving DecidableEq

/-- `VtIntermediates::new`. -/
def VtIntermediates.new : VtIntermediates :=
  { buf := List.replicate 2 0, len := 0 }

/-- `VtIntermediates::len`: `min(self.buf.len(), self.len as usize)`. -/
def VtIntermediates.lenVis (i : VtIntermediates) : Nat :=
  min i.buf.length i.len

/-- `VtIntermediates::push`: at capacity, records the overrun sentinel 3. -/
def VtIntermediates.push (i : VtIntermediates) (c : Nat) : VtIntermediates :=
  let l := i.lenVis
  if i.buf.length ≤ l then { i with len := 3 }
  else { buf := i.buf.set l c, len := i.len + 1 }

/-- `VtIntermediates::clear`. -/
def VtIntermediates.clear (i : VtIntermediates) : VtIntermediates :=
  { i with len := 0 }

/-- `VtIntermediates::chars`: the view `&self.buf[..self.len()]`. -/
def VtIntermediates.chars (i : VtIntermediates) : List Nat :=
  i.buf.take i.lenVis

/-- `VtIntermediates::has_overrun`. -/
def VtIntermediates.has_overrun (i : VtIntermediates) : Bool :=
  decide (i.buf.length < i.len)

/-- Models `impl Debug for VtIntermediates`, which formats the range
`&self.buf[..(self.len as usize)]` using the raw `len` field.  A Rust slice
expression panics when the upper bound exceeds the slice length, which we model
by returning `none` in exactly that case. -/
def VtIntermediates.debugSlice (i : VtIntermediates) : Option (List Nat) :=
  if i.len ≤ i.buf.length then some (i.buf.take i.len) else none

/-- The events of `VtMachine` (`enum VtEvent` in `src/machine.rs`).  The borrowed
`&VtParams` / `&VtIntermediates` payloads become values: the borrow observes the
buffers at the moment of dispatch. -/
inductive VtEvent where
  | Print (c : Nat)
  | PrintEnd
  | ExecuteCtrl (b : Nat)
  | DispatchCsi (cmd : Nat) (params : VtParams) (intermediates : VtIntermediates)
  | DispatchEsc (cmd : Nat) (intermediates : VtIntermediates)
  | DcsStart (cmd : Nat) (params : VtParams) (intermediates : VtIntermediates)
  | DcsChar (c : Nat)
  | DcsEnd (b : Nat)
  | OscStart (b : Nat)
  | OscChar (c : Nat)
  | OscEnd (b : Nat)
  | Error (c : Nat)
deriving DecidableEq

/-- Models `Transition::new` followed by full iteration: the `Some` events of
the slots, in slot order. -/
def transitionEvents (l : List (Option VtEvent)) : List VtEvent :=
  l.filterMap id

/-- The machine's dispatch decision for one scalar: change to a new state with
a main transition action, stay and run an action, or ignore the scalar. -/
inductive VtDisp where
  | toState (s : VtState) (t : VtAction)
  | stay (a : VtAction)
  | ignore
deriving DecidableEq

/-- The per-state arms of the `match self.state` in `VtMachine::write_u8char`,
translated arm by arm.  Used only when no universal first-byte rule applies. -/
def dispatchState (st : VtState) (fb : Nat) : VtDisp :=
  match st with
  | .Literal =>
      if isC0 fb then .stay .Execute
      else .stay .Print
  | .Escape =>
      if isC0 fb then .stay .Execute
      else if fb = 0x7f then .ignore
      else if 0x20 ≤ fb ∧ fb ≤ 0x2f then .toState .EscapeIntermediate .Collect
      else if (0x30 ≤ fb ∧ fb ≤ 0x4f) ∨ (0x51 ≤ fb ∧ fb ≤ 0x57) ∨ fb = 0x59
          ∨ fb = 0x5a ∨ fb = 0x5c ∨ (0x60 ≤ fb ∧ fb ≤ 0x7e) then
        .toState .Literal .EscDispatch
      else if fb = 0x5b then .toState .CtrlStart .None
      else if fb = 0x5d then .toState .OsCmd .None
      else if fb = 0x50 then .toState .DevCtrlStart .None
      else if fb = 0x58 ∨ fb = 0x5e ∨ fb = 0x5f then .toState .IgnoreUntilSt .None
      else .toState .Literal .Error
  | .EscapeIntermediate =>
      if isC0 fb then .stay .Execute
      else if fb = 0x7f then .ignore
      else if 0x20 ≤ fb ∧ fb ≤ 0x2f then .stay .Collect
      else if 0x30 ≤ fb ∧ fb ≤ 0x7e then .toState .Literal .EscDispatch
      else .toState .Literal .Error
  | .CtrlStart =>
      if isC0 fb then .stay .Execute
      else if fb = 0x7f then .ignore
      else if 0x20 ≤ fb ∧ fb ≤ 0x2f then .toState .CtrlIntermediate .Collect
      else if fb = 0x3a then .toState .CtrlMalformed .None
      else if (0x30 ≤ fb ∧ fb ≤ 0x39) ∨ fb = 0x3b then .toState .CtrlParam .Param
      else if 0x3c ≤ fb ∧ fb ≤ 0x3f then .toState .CtrlParam .Collect
      else if 0x40 ≤ fb ∧ fb ≤ 0x7e then .toState .Literal .CsiDispatch
      else .toState .Literal .Error
  | .CtrlParam =>
      if isC0 fb then .stay .Execute
      else if (0x30 ≤ fb ∧ fb ≤ 0x39) ∨ fb = 0x3b then .stay .Param
      else if fb = 0x7f then .ignore
      else if fb = 0x3a ∨ (0x3c ≤ fb ∧ fb ≤ 0x3f) then .toState .CtrlMalformed .None
      else if 0x20 ≤ fb ∧ fb ≤ 0x2f then .toState .CtrlIntermediate .Collect
      else if 0x40 ≤ fb ∧ fb ≤ 0x7e then .toState .Literal .CsiDispatch
      else .toState .Literal .Error
  | .CtrlIntermediate =>
      if isC0 fb then .stay .Execute
      else if 0x20 ≤ fb ∧ fb ≤ 0x2f then .stay .Collect
      else if fb = 0x7f then .ignore
      else if fb = 0x3a ∨ (0x3c ≤ fb ∧ fb ≤ 0x3f) then .toState .CtrlMalformed .None
      else if 0x40 ≤ fb ∧ fb ≤ 0x7e then .toState .Literal .CsiDispatch
      else .toState .Literal .Error
  | .CtrlMalformed =>
      if isC0 fb then .stay .Execute
      else if (0x20 ≤ fb ∧ fb ≤ 0x3f) ∨ fb = 0x7f then .ignore
      else if 0x40 ≤ fb ∧ fb ≤ 0x7e then .toState .Literal .None
      else .toState .Literal .Error
  | .DevCtrlStart =>
      if isC0 fb ∨ fb = 0x7f then .ignore
      else if fb = 0x3a then .toState .DevCtrlMalformed .None
      else if 0x20 ≤ fb ∧ fb ≤ 0x2f then .toState .DevCtrlIntermediate .Collect
      else if (0x30 ≤ fb ∧ fb ≤ 0x39) ∨ fb = 0x3b then .toState .DevCtrlParam .Param
      else if 0x3c ≤ fb ∧ fb ≤ 0x3f then .toState .DevCtrlParam .Collect
      else if 0x40 ≤ fb ∧ fb ≤ 0x7e then .toState .DevCtrlPassthru .None
      else .toState .Literal .Error
  | .DevCtrlParam =>
      if isC0 fb ∨ fb = 0x7f then .ignore
      else if (0x30 ≤ fb ∧ fb ≤ 0x39) ∨ fb = 0x3b then .stay .Param
      else if fb = 0x3a ∨ (0x3c ≤ fb ∧ fb ≤ 0x3f) then .toState .DevCtrlMalformed .None
      else if 0x20 ≤ fb ∧ fb ≤ 0x2f then .toState .DevCtrlIntermediate .Collect
      else if 0x40 ≤ fb ∧ fb ≤ 0x7e then .toState .DevCtrlPassthru .None
      else .toState .Literal .Error
  | .DevCtrlIntermediate =>
      if isC0 fb ∨ fb = 0x7f then .ignore
      else if 0x20 ≤ fb ∧ fb ≤ 0x2f then .stay .Collect
      else if 0x30 ≤ fb ∧ fb ≤ 0x3f then .toState .DevCtrlMalformed .None
      else if 0x40 ≤ fb ∧ fb ≤ 0x7e then .toState .DevCtrlPassthru .None
      else .toState .Literal .Error
  | .DevCtrlPassthru =>
      if isC0 fb ∨ (0x20 ≤ fb ∧ fb ≤ 0x7e) then .stay .Put
      else if fb = 0x7f then .ignore
      else .toState .Literal .Error
  | .DevCtrlMalformed =>
      if isC0 fb ∨ (0x20 ≤ fb ∧ fb ≤ 0x7f) then .ignore
      else .toState .Literal .Error
  | .OsCmd =>
      if isC0 fb then .ignore
      else if 0x20 ≤ fb ∧ fb ≤ 0x7f then .stay .OscPut
      else .toState .Literal .Error
  | .IgnoreUntilSt =>
      if isC0 fb ∨ (0x20 ≤ fb ∧ fb ≤ 0x7f) then .ignore
      else .toState .Literal .Error

/-- The dispatch table of `VtMachine::write_u8char`: first the universal
first-byte rules, then the per-state match. -/
def dispatch (st : VtState) (fb : Nat) : VtDisp :=
  if fb = 0x18 ∨ fb = 0x1a ∨ (0x80 ≤ fb ∧ fb ≤ 0x8f) ∨ (0x91 ≤ fb ∧ fb ≤ 0x97)
      ∨ fb = 0x99 ∨ fb = 0x9a then
    .toState .Literal .Execute
  else if fb = 0x9c then .toState .Literal .None
  else if fb = 0x1b then .toState .Escape .None
  else if fb = 0x98 ∨ fb = 0x9e ∨ fb = 0x9f then .toState .IgnoreUntilSt .None
  else if fb = 0x90 then .toState .DevCtrlStart .None
  else if fb = 0x9d then .toState .OsCmd .None
  else if fb = 0x9b then .toState .CtrlStart .None
  else dispatchState st fb

/-- The machine state (`struct VtMachine`). -/
structure VtMachine where
  state : VtState
  intermediates : VtIntermediates
  params : VtParams
  in_literal_chunk : Bool
deriving DecidableEq

/-- `VtMachine::new`. -/
def VtMachine.new : VtMachine :=
  { state := .Literal
    intermediates := VtIntermediates.new
    params := VtParams.new
    in_literal_chunk := false }

/-- The buffer mutations of `VtMachine::action` (its `match` part). -/
def VtMachine.applyAction (m : VtMachine) (a : VtAction) (c : Nat) : VtMachine :=
  match a with
  | .Collect => { m with intermediates := m.intermediates.push (firstByte c) }
  | .Param => { m with params := m.params.push_csi_char c }
  | .Clear | .Error =>
      { m with intermediates := m.intermediates.clear, params := m.params.clear }
  | _ => m

/-- `VtMachine::action`: buffer mutations plus the print-run flag maintenance,
returning the synthetic `PrintEnd` cleanup event when the flag is cleared. -/
def VtMachine.action (m : VtMachine) (a : VtAction) (c : Nat) :
    VtMachine × Option VtEvent :=
  let m1 := m.applyAction a c
  if a = .Print then ({ m1 with in_literal_chunk := true }, none)
  else if m1.in_literal_chunk then
    ({ m1 with in_literal_chunk := false }, some .PrintEnd)
  else (m1, none)

/-- `VtMachine::action_event`: the primary event of an action. -/
def VtMachine.action_event (m : VtMachine) (a : VtAction) (c : Nat) : Option VtEvent :=
  match a with
  | .Print => some (.Print c)
  | .Execute => some (.ExecuteCtrl (firstByte c))
  | .Hook => some (.DcsStart (firstByte c) m.params m.intermediates)
  | .Put => some (.DcsChar c)
  | .OscStart => some (.OscStart (firstByte c))
  | .OscPut => some (.OscChar c)
  | .CsiDispatch => some (.DispatchCsi (firstByte c) m.params m.intermediates)
  | .EscDispatch => some (.DispatchEsc (firstByte c) m.intermediates)
  | .None | .Collect | .Param | .Clear => none
  | .Error => some (.Error c)

/-- `VtMachine::just_action`. -/
def VtMachine.just_action (m : VtMachine) (a : VtAction) (c : Nat) :
    VtMachine × List VtEvent :=
  let r := m.action a c
  let main := r.1.action_event a c
  (r.1, transitionEvents [r.2, main])

/-- `VtMachine::state_entry_action`. -/
def VtMachine.state_entry_action (s : VtState) : Option VtAction :=
  match s with
  | .Escape => some .Clear
  | .CtrlStart => some .Clear
  | .DevCtrlStart => some .Clear
  | .OsCmd => some .OscStart
  | .DevCtrlPassthru => some .Hook
  | _ => none

/-- `VtMachine::state_exit_event`. -/
def VtMachine.state_exit_event (s : VtState) (c : Nat) : Option VtEvent :=
  match s with
  | .OsCmd => some (.OscEnd (firstByte c))
  | .DevCtrlPassthru => some (.DcsEnd (firstByte c))
  | _ => none

/-- `VtMachine::change_state`: exit event, entry-action cleanup, main-action
cleanup, main event, entry event, in the source's slot order. -/
def VtMachine.change_state (m : VtMachine) (s : VtState) (t : VtAction) (c : Nat) :
    VtMachine × List VtEvent :=
  let exitEvent := VtMachine.state_exit_event m.state c
  let m1 := { m with state := s }
  let entryAction := VtMachine.state_entry_action s
  let r2 : VtMachine × Option VtEvent :=
    match entryAction with
    | some a => m1.action a c
    | none => (m1, none)
  let r3 := r2.1.action t c
  let entryEvent : Option VtEvent :=
    match entryAction with
    | some a => r3.1.action_event a c
    | none => none
  let mainEvent := r3.1.action_event t c
  (r3.1, transitionEvents [exitEvent, r2.2, r3.2, mainEvent, entryEvent])

/-- `VtMachine::write_u8char`: dispatch on the first byte and current state. -/
def VtMachine.write_u8char (m : VtMachine) (c : Nat) : VtMachine × List VtEvent :=
  match dispatch m.state (firstByte c) with
  | .toState s t => m.change_state s t c
  | .stay a => m.just_action a c
  | .ignore => (m, [])

/-- `VtMachine::write_end`. -/
def VtMachine.write_end (m : VtMachine) : VtMachine × List VtEvent :=
  let m1 :=
    { m with
        state := .Literal
        intermediates := m.intermediates.clear
        params := m.params.clear }
  if m1.in_literal_chunk then
    ({ m1 with in_literal_chunk := false }, [.PrintEnd])
  else (m1, [])

/-- Writing a sequence of scalars in order, concatenating the emitted events. -/
def VtMachine.writeAll (m : VtMachine) (cs : List Nat) : VtMachine × List VtEvent :=
  match cs with
  | [] => (m, [])
  | c :: rest =>
      let r1 := m.write_u8char c
      let r2 := r1.1.writeAll rest
      (r2.1, r1.2 ++ r2.2)

/-- The full event trace of a stream: a fresh machine consumes the scalars and
the end of the stream is then signalled with `write_end`. -/
def runEnd (cs : List Nat) : List VtEvent :=
  let r := VtMachine.new.writeAll cs
  r.2 ++ (r.1.write_end).2

/-- Machine configurations reachable from `VtMachine::new` by any sequence of
`write_u8char` and `write_end` calls. -/
inductive Reachable : VtMachine → Prop where
  | init : Reachable VtMachine.new
  | step (m : VtMachine) (c : Nat) : Reachable m → Reachable (m.write_u8char c).1
  | fin (m : VtMachine) : Reachable m → Reachable (m.write_end).1

/-- A `VtIntermediates` value produced by three pushes: the third push records
the overrun sentinel in `len`. -/
def overrunSample : VtIntermediates :=
  ((VtIntermediates.new.push 0x20).push 0x21).push 0x22

/-- C2: writing the five Unicode scalars U+009D, f, o, o, U+009C to a fresh
machine emits exactly `OscStart(0x9d) OscChar(f) OscChar(o) OscChar(o)
OscEnd(0x9c)`: the C1 controls act as universal entry points when presented as
Unicode scalar values. -/
theorem c1_osc_scalars_trace :
    (VtMachine.new.writeAll [0x9d, 0x66, 0x6f, 0x6f, 0x9c]).2 =
      [VtEvent.OscStart 0x9d, VtEvent.OscChar 0x66, VtEvent.OscChar 0x6f,
        VtEvent.OscChar 0x6f, VtEvent.OscEnd 0x9c] := by decide

/-- C6: writing each scalar of "hello world\r\nboop" and then signalling end of
stream yields the eleven `Print`s, a `PrintEnd`, the two `ExecuteCtrl`s, four
more `Print`s and a final `PrintEnd`. -/
theorem hello_world_trace :
    runEnd [0x68, 0x65, 0x6c, 0x6c, 0x6f, 0x20, 0x77, 0x6f, 0x72, 0x6c, 0x64,
        0x0d, 0x0a, 0x62, 0x6f, 0x6f, 0x70] =
      [VtEvent.Print 0x68, VtEvent.Print 0x65, VtEvent.Print 0x6c,
        VtEvent.Print 0x6c, VtEvent.Print 0x6f, VtEvent.Print 0x20,
        VtEvent.Print 0x77, VtEvent.Print 0x6f, VtEvent.Print 0x72,
        VtEvent.Print 0x6c, VtEvent.Print 0x64, VtEvent.PrintEnd,
        VtEvent.ExecuteCtrl 0x0d, VtEvent.ExecuteCtrl 0x0a,
        VtEvent.Print 0x62, VtEvent.Print 0x6f, VtEvent.Print 0x6f,
        VtEvent.Print 0x70, VtEvent.PrintEnd] := by decide

/-- C8: pushing onto a `VtParams` that already holds 16 values leaves it fully
unchanged: the length stays 16 and every stored value is undisturbed. -/
theorem vtparams_push_at_capacity (p : VtParams) (v : Nat)
    (h16 : p.buf.length = 16) (hlen : p.len = 16) : p.push v = p := by
  unfold VtParams.push
  rw [hlen, h16, if_pos rfl]

/-- Witness for C8 at a concrete full buffer. -/
theorem vtparams_push_at_capacity_witness :
    (VtParams.mk (List.replicate 16 7) 16).push 3 =
      VtParams.mk (List.replicate 16 7) 16 :=
  vtparams_push_at_capacity (VtParams.mk (List.replicate 16 7) 16) 3 (by decide) rfl

/-- C9: after three pushes the stored length field holds the overrun sentinel
3, `has_overrun` is true, and the `Debug` implementation slices the 2-byte
buffer with the out-of-range upper bound 3 (a panic, modelled as `none`)
instead of printing the two retained bytes. -/
theorem intermediates_debug_overrun_panics :
    overrunSample.len = 3 ∧ overrunSample.buf.length = 2 ∧
      overrunSample.has_overrun = true ∧ overrunSample.debugSlice = none ∧
      overrunSample.chars = [0x20, 0x21] := by decide

/-- Print classifier on events. -/
def isPr : VtEvent → Bool
  | .Print _ => true
  | _ => false

/-- PrintEnd classifier on events. -/
def isPE : VtEvent → Bool
  | .PrintEnd => true
  | _ => false

/-- An event that is neither a `Print` nor a `PrintEnd`. -/
def plainEv (e : VtEvent) : Prop :=
  isPr e = false ∧ isPE e = false

lemma applyAction_state (m : VtMachine) (a : VtAction) (c : Nat) :
    (m.applyAction a c).state = m.state := by
  cases a <;> rfl

lemma applyAction_flag (m : VtMachine) (a : VtAction) (c : Nat) :
    (m.applyAction a c).in_literal_chunk = m.in_literal_chunk := by
  cases a <;> rfl

lemma flag_set_false_eq (x : VtMachine) (hx : x.in_literal_chunk = false) :
    { x with in_literal_chunk := false } = x := by
  cases x
  simp only at hx
  rw [hx]

lemma action_spec_print (m : VtMachine) (c : Nat) :
    m.action .Print c = ({ m with in_literal_chunk := true }, none) := rfl

lemma action_spec_ne (m : VtMachine) (a : VtAction) (c : Nat) (ha : a ≠ .Print) :
    m.action a c =
      ({ m.applyAction a c with in_literal_chunk := false },
        if m.in_literal_chunk then some VtEvent.PrintEnd else none) := by
  unfold VtMachine.action
  simp only [if_neg ha, applyAction_flag]
  by_cases h : m.in_literal_chunk
  · rw [if_pos h, if_pos h]
  · rw [if_neg h, if_neg h]
    rw [flag_set_false_eq]
    rw [applyAction_flag]
    exact Bool.not_eq_true _ |>.mp h

lemma action_flag_of_ne (m : VtMachine) (a : VtAction) (c : Nat) (ha : a ≠ .Print) :
    ((m.action a c).1).in_literal_chunk = false := by
  rw [action_spec_ne m a c ha]

lemma action_state (m : VtMachine) (a : VtAction) (c : Nat) :
    ((m.action a c).1).state = m.state := by
  by_cases ha : a = .Print
  · subst ha; rw [action_spec_print]
  · rw [action_spec_ne m a c ha]
    exact applyAction_state m a c

lemma action_snd_shape (m : VtMachine) (a : VtAction) (c : Nat) :
    (m.action a c).2 = none ∨ (m.action a c).2 = some VtEvent.PrintEnd := by
  by_cases ha : a = .Print
  · subst ha; rw [action_spec_print]; exact Or.inl rfl
  · rw [action_spec_ne m a c ha]
    by_cases h : m.in_literal_chunk
    · rw [if_pos h]; exact Or.inr rfl
    · rw [if_neg h]; exact Or.inl rfl

lemma action_event_ne_printEnd (m : VtMachine) (a : VtAction) (c : Nat) :
    m.action_event a c ≠ some VtEvent.PrintEnd := by
  cases a <;> simp [VtMachine.action_event]

lemma action_event_ne_print (m : VtMachine) (a : VtAction) (c : Nat)
    (ha : a ≠ .Print) (x : Nat) : m.action_event a c ≠ some (VtEvent.Print x) := by
  cases a <;> simp_all [VtMachine.action_event]

lemma action_event_ne_error (m : VtMachine) (a : VtAction) (c : Nat)
    (ha : a ≠ .Error) (x : Nat) : m.action_event a c ≠ some (VtEvent.Error x) := by
  cases a <;> simp_all [VtMachine.action_event]

lemma action_event_plain (m : VtMachine) (a : VtAction) (c : Nat) (e : VtEvent)
    (ha : a ≠ .Print) (h : m.action_event a c = some e) : plainEv e := by
  cases a <;> simp_all [VtMachine.action_event] <;> subst h <;>
    simp [plainEv, isPr, isPE]

lemma exit_event_plain (s : VtState) (c : Nat) (e : VtEvent)
    (h : VtMachine.state_exit_event s c = some e) :
    plainEv e ∧ ∀ x, e ≠ VtEvent.Error x := by
  cases s <;> simp_all [VtMachine.state_exit_event] <;> subst h <;>
    simp [plainEv, isPr, isPE]

lemma entry_action_ne (s : VtState) (a : VtAction)
    (h : VtMachine.state_entry_action s = some a) : a ≠ .Print ∧ a ≠ .Error := by
  cases s <;> simp_all [VtMachine.state_entry_action] <;> subst h <;> decide

lemma mem_transitionEvents (e : VtEvent) (l : List (Option VtEvent)) :
    e ∈ transitionEvents l ↔ some e ∈ l := by
  simp only [transitionEvents, List.mem_filterMap, id_eq]
  constructor
  · rintro ⟨a, ha, h⟩
    rw [h] at ha
    exact ha
  · intro h
    exact ⟨some e, h, rfl⟩

lemma dispatchState_stay (st : VtState) (fb : Nat) (a : VtAction)
    (h : dispatchState st fb = .stay a) :
    a ≠ .Error ∧ (a = .Print → st = .Literal) := by
  cases st <;> simp only [dispatchState] at h <;> split_ifs at h <;>
    first
      | (injection h with h1; subst h1; decide)
      | simp at h

lemma dispatchState_toState (st : VtState) (fb : Nat) (s : VtState) (t : VtAction)
    (h : dispatchState st fb = .toState s t) :
    t ≠ .Print ∧ (t = .Error → s = .Literal) := by
  cases st <;> simp only [dispatchState] at h <;> split_ifs at h <;>
    first
      | (injection h with h1 h2; subst h1; subst h2; decide)
      | simp at h

lemma dispatch_stay (st : VtState) (fb : Nat) (a : VtAction)
    (h : dispatch st fb = .stay a) :
    a ≠ .Error ∧ (a = .Print → st = .Literal) := by
  unfold dispatch at h
  split_ifs at h <;>
    first
      | exact dispatchState_stay st fb a h
      | simp at h

lemma dispatch_toState (st : VtState) (fb : Nat) (s : VtState) (t : VtAction)
    (h : dispatch st fb = .toState s t) :
    t ≠ .Print ∧ (t = .Error → s = .Literal) := by
  unfold dispatch at h
  split_ifs at h <;>
    first
      | exact dispatchState_toState st fb s t h
      | (injection h with h1 h2; subst h1; subst h2; decide)

lemma transitionEvents_len_le (l : List (Option VtEvent)) :
    (transitionEvents l).length ≤ l.length :=
  List.length_filterMap_le id l

lemma change_state_len_le (m : VtMachine) (s : VtState) (t : VtAction) (c : Nat) :
    (m.change_state s t c).2.length ≤ 5 := by
  unfold VtMachine.change_state
  exact le_trans (transitionEvents_len_le _) (by simp)

lemma just_action_len_le (m : VtMachine) (a : VtAction) (c : Nat) :
    (m.just_action a c).2.length ≤ 2 := by
  unfold VtMachine.just_action
  exact le_trans (transitionEvents_len_le _) (by simp)

lemma write_u8char_cases (m : VtMachine) (c : Nat) :
    (∃ s t, dispatch m.state (firstByte c) = .toState s t ∧
        m.write_u8char c = m.change_state s t c) ∨
      (∃ a, dispatch m.state (firstByte c) = .stay a ∧
        m.write_u8char c = m.just_action a c) ∨
      (dispatch m.state (firstByte c) = .ignore ∧ m.write_u8char c = (m, [])) := by
  rcases hd : dispatch m.state (firstByte c) with ⟨s, t⟩ | a | _
  · exact Or.inl ⟨s, t, rfl, by unfold VtMachine.write_u8char; rw [hd]⟩
  · exact Or.inr (Or.inl ⟨a, rfl, by unfold VtMachine.write_u8char; rw [hd]⟩)
  · exact Or.inr (Or.inr ⟨rfl, by unfold VtMachine.write_u8char; rw [hd]⟩)

/-- C7: a single scalar write emits at most 5 events (the five ordered slots of
a `Transition`), and `write_end` emits at most one event. -/
theorem write_event_count_bounds (m : VtMachine) (c : Nat) :
    (m.write_u8char c).2.length ≤ 5 ∧ (m.write_end).2.length ≤ 1 := by
  constructor
  · rcases write_u8char_cases m c with ⟨s, t, _, hw⟩ | ⟨a, _, hw⟩ | ⟨_, hw⟩ <;> rw [hw]
    · exact change_state_len_le m s t c
    · exact le_trans (just_action_len_le m a c) (by decide)
    · simp
  · unfold VtMachine.write_end
    dsimp only
    split <;> simp

lemma just_action_no_error (m : VtMachine) (a : VtAction) (c : Nat) (x : Nat)
    (ha : a ≠ .Error) : VtEvent.Error x ∉ (m.just_action a c).2 := by
  intro hmem
  unfold VtMachine.just_action at hmem
  rw [mem_transitionEvents] at hmem
  simp only [List.mem_cons, List.not_mem_nil, or_false] at hmem
  rcases hmem with h | h
  · rcases action_snd_shape m a c with hs | hs <;> rw [hs] at h <;> simp at h
  · exact action_event_ne_error _ a c ha x h.symm

lemma change_state_no_error (m : VtMachine) (s : VtState) (t : VtAction) (c : Nat)
    (x : Nat) (ht : t ≠ .Error) : VtEvent.Error x ∉ (m.change_state s t c).2 := by
  intro hmem
  cases he : VtMachine.state_entry_action s with
  | none =>
      simp only [VtMachine.change_state, he] at hmem
      rw [mem_transitionEvents] at hmem
      simp only [List.mem_cons, List.not_mem_nil, or_false] at hmem
      rcases hmem with h | h | h | h | h
      · exact (exit_event_plain _ _ _ h.symm).2 x rfl
      · simp at h
      · rcases action_snd_shape { m with state := s } t c with hs | hs <;>
          rw [hs] at h <;> simp at h
      · exact action_event_ne_error _ t c ht x h.symm
      · simp at h
  | some a =>
      have ha := entry_action_ne s a he
      simp only [VtMachine.change_state, he] at hmem
      rw [mem_transitionEvents] at hmem
      simp only [List.mem_cons, List.not_mem_nil, or_false] at hmem
      rcases hmem with h | h | h | h | h
      · exact (exit_event_plain _ _ _ h.symm).2 x rfl
      · rcases action_snd_shape { m with state := s } a c with hs | hs <;>
          rw [hs] at h <;> simp at h
      · rcases action_snd_shape ({ m with state := s }.action a c).1 t c with hs | hs <;>
          rw [hs] at h <;> simp at h
      · exact action_event_ne_error _ t c ht x h.symm
      · exact action_event_ne_error _ a c ha.2 x h.symm

lemma action_error_fst (m : VtMachine) (c : Nat) :
    (m.action .Error c).1 =
      { m with
          intermediates := m.intermediates.clear
          params := m.params.clear
          in_literal_chunk := false } := by
  cases m with
  | mk st i p f => cases f <;> rfl

lemma change_state_error_post (m : VtMachine) (c : Nat) :
    (m.change_state .Literal .Error c).1.state = VtState.Literal ∧
      (m.change_state .Literal .Error c).1.params.values = [] ∧
      (m.change_state .Literal .Error c).1.intermediates.chars = [] := by
  have h1 : (m.change_state .Literal .Error c).1 =
      (({ m with state := VtState.Literal }).action .Error c).1 := rfl
  rw [h1, action_error_fst]
  refine ⟨rfl, ?_, ?_⟩
  · simp [VtParams.values, VtParams.clear]
  · simp [VtIntermediates.chars, VtIntermediates.clear, VtIntermediates.lenVis]

/-- C3: whenever a write emits an `Error` event, the machine ends that write in
state `Literal` with both the parameter and intermediate buffers empty.  The
write itself is a total function: no failure is propagated to the caller. -/
theorem error_resets_machine (m : VtMachine) (c x : Nat)
    (h : VtEvent.Error x ∈ (m.write_u8char c).2) :
    (m.write_u8char c).1.state = VtState.Literal ∧
      (m.write_u8char c).1.params.values = [] ∧
      (m.write_u8char c).1.intermediates.chars = [] := by
  rcases write_u8char_cases m c with ⟨s, t, hd, hw⟩ | ⟨a, hd, hw⟩ | ⟨hd, hw⟩
  · rw [hw] at h ⊢
    by_cases ht : t = .Error
    · subst ht
      have hs : s = .Literal := (dispatch_toState _ _ _ _ hd).2 rfl
      subst hs
      exact change_state_error_post m c
    · exact absurd h (change_state_no_error m s t c x ht)
  · rw [hw] at h
    exact absurd h (just_action_no_error m a c x (dispatch_stay _ _ _ hd).1)
  · rw [hw] at h
    simp at h

/-- Witness for C3: a fresh machine moved into the `Escape` state errors on the
non-ASCII scalar U+0100. -/
theorem error_resets_machine_witness :
    (({ VtMachine.new with state := VtState.Escape }).write_u8char 0x100).1.state
        = VtState.Literal ∧
      (({ VtMachine.new with state := VtState.Escape }).write_u8char 0x100).1.params.values
        = [] ∧
      (({ VtMachine.new with state := VtState.Escape }).write_u8char 0x100).1.intermediates.chars
        = [] :=
  error_resets_machine { VtMachine.new with state := VtState.Escape } 0x100 0x100
    (by decide)

lemma just_action_fst (m : VtMachine) (a : VtAction) (c : Nat) :
    (m.just_action a c).1 = (m.action a c).1 := rfl

lemma just_action_state (m : VtMachine) (a : VtAction) (c : Nat) :
    (m.just_action a c).1.state = m.state := by
  rw [just_action_fst]; exact action_state m a c

lemma just_action_flag_ne (m : VtMachine) (a : VtAction) (c : Nat)
    (ha : a ≠ .Print) : (m.just_action a c).1.in_literal_chunk = false := by
  rw [just_action_fst]; exact action_flag_of_ne m a c ha

lemma change_state_fst (m : VtMachine) (s : VtState) (t : VtAction) (c : Nat) :
    (m.change_state s t c).1 =
      ((match VtMachine.state_entry_action s with
        | some a => ({ m with state := s }).action a c
        | none => ({ m with state := s }, none)).1.action t c).1 := rfl

lemma change_state_flag (m : VtMachine) (s : VtState) (t : VtAction) (c : Nat)
    (ht : t ≠ .Print) : (m.change_state s t c).1.in_literal_chunk = false := by
  rw [change_state_fst]
  exact action_flag_of_ne _ t c ht

lemma change_state_state (m : VtMachine) (s : VtState) (t : VtAction) (c : Nat) :
    (m.change_state s t c).1.state = s := by
  rw [change_state_fst, action_state]
  cases he : VtMachine.state_entry_action s with
  | none => rfl
  | some a =>
      dsimp only
      rw [action_state]

lemma write_end_flag (m : VtMachine) : (m.write_end).1.in_literal_chunk = false := by
  unfold VtMachine.write_end
  dsimp only
  split
  · rfl
  · next h => exact Bool.not_eq_true _ |>.mp h

/-- The print-run invariant: the flag `in_literal_chunk` can only be set while
the machine sits in the `Literal` state. -/
def PrintChunkInv (m : VtMachine) : Prop :=
  m.in_literal_chunk = true → m.state = .Literal

lemma inv_step (m : VtMachine) (c : Nat) (h : PrintChunkInv m) :
    PrintChunkInv (m.write_u8char c).1 := by
  rcases write_u8char_cases m c with ⟨s, t, hd, hw⟩ | ⟨a, hd, hw⟩ | ⟨_, hw⟩ <;> rw [hw]
  · intro hf
    rw [change_state_flag m s t c (dispatch_toState _ _ _ _ hd).1] at hf
    exact Bool.noConfusion hf
  · by_cases hp : a = .Print
    · subst hp
      intro _
      rw [just_action_state]
      exact (dispatch_stay _ _ _ hd).2 rfl
    · intro hf
      rw [just_action_flag_ne m a c hp] at hf
      exact Bool.noConfusion hf
  · exact h

lemma inv_end (m : VtMachine) : PrintChunkInv (m.write_end).1 := by
  intro hf
  rw [write_end_flag] at hf
  exact Bool.noConfusion hf

lemma reachable_inv (m : VtMachine) (h : Reachable m) : PrintChunkInv m := by
  induction h with
  | init => intro _; rfl
  | step m c _ ih => exact inv_step m c ih
  | fin m _ _ => exact inv_end m

/-- C10: in every reachable machine configuration, `in_literal_chunk = true`
implies the state is `Literal`; the machine is never mid-print-run inside an
escape, CSI, DCS, OSC, or ignore state. -/
theorem literal_chunk_only_in_literal (m : VtMachine) (hr : Reachable m)
    (hf : m.in_literal_chunk = true) : m.state = VtState.Literal :=
  reachable_inv m hr hf

/-- Witness for C10: after printing one character the flag is set and the state
is `Literal`. -/
theorem literal_chunk_only_in_literal_witness :
    (VtMachine.new.write_u8char 0x61).1.state = VtState.Literal :=
  literal_chunk_only_in_literal (VtMachine.new.write_u8char 0x61).1
    (Reachable.step VtMachine.new 0x61 Reachable.init) (by decide)

/-- C5: from a reachable configuration in `DevCtrlPassthru`, writing CAN
(U+0018) emits `DcsEnd(0x18)` and then `ExecuteCtrl(0x18)`, in that order (the
exit action fires before the main action of the forced universal transition),
and the machine lands in `Literal`. -/
theorem dcs_cancel_event_order (m : VtMachine) (hr : Reachable m)
    (hst : m.state = VtState.DevCtrlPassthru) :
    (m.write_u8char 0x18).2 = [VtEvent.DcsEnd 0x18, VtEvent.ExecuteCtrl 0x18] ∧
      (m.write_u8char 0x18).1.state = VtState.Literal := by
  have hf : m.in_literal_chunk = false := by
    by_cases h : m.in_literal_chunk
    · have := reachable_inv m hr h
      rw [hst] at this
      exact absurd this (by decide)
    · exact Bool.not_eq_true _ |>.mp h
  have hd : dispatch m.state (firstByte 0x18) = .toState .Literal .Execute := by
    have hfb : firstByte 0x18 = 0x18 := rfl
    rw [hfb]
    unfold dispatch
    rw [if_pos (Or.inl rfl)]
  have hw : m.write_u8char 0x18 = m.change_state .Literal .Execute 0x18 := by
    unfold VtMachine.write_u8char
    rw [hd]
  rw [hw]
  refine ⟨?_, change_state_state m _ _ _⟩
  simp [VtMachine.change_state, VtMachine.state_entry_action,
    VtMachine.state_exit_event, hst, hf, VtMachine.action, VtMachine.applyAction,
    VtMachine.action_event, transitionEvents, firstByte]

/-- A concrete reachable machine inside a DCS payload: ESC, P, q. -/
def dcsSample : VtMachine :=
  (((VtMachine.new.write_u8char 0x1b).1.write_u8char 0x50).1.write_u8char 0x71).1

/-- Witness for C5 at a concrete reachable machine. -/
theorem dcs_cancel_event_order_witness :
    (dcsSample.write_u8char 0x18).2 =
        [VtEvent.DcsEnd 0x18, VtEvent.ExecuteCtrl 0x18] ∧
      (dcsSample.write_u8char 0x18).1.state = VtState.Literal :=
  dcs_cancel_event_order dcsSample
    (Reachable.step _ 0x71 (Reachable.step _ 0x50
      (Reachable.step _ 0x1b Reachable.init)))
    (by decide)

lemma take_succ_set_self (l : List Nat) (n v : Nat) (h : n < l.length) :
    (l.set n v).take (n + 1) = l.take n ++ [v] := by
  induction l generalizing n with
  | nil => simp at h
  | cons a t ih =>
      cases n with
      | zero => simp
      | succ k =>
          simp only [List.set_cons_succ, List.take_succ_cons, List.cons_append,
            List.cons.injEq, true_and]
          exact ih k (by simpa using h)

lemma push_csi_char_semi (p : VtParams) (c : Nat) (hc : firstByte c = 0x3B) :
    p.push_csi_char c = p.push 0 := by
  unfold VtParams.push_csi_char
  rw [if_pos hc]

lemma firstByte_small (c : Nat) (h : c < 0xA0) : firstByte c = c := by
  unfold firstByte
  rw [if_pos h]

lemma push_csi_char_digit (p : VtParams) (c : Nat) (hc1 : 0x30 ≤ c)
    (hc2 : c ≤ 0x39) (hpos : 0 < p.len) :
    p.push_csi_char c =
      { p with buf :=
          p.buf.set (p.len - 1) ((p.buf.getD (p.len - 1) 0 * 10 + (c - 0x30)) % 65536) } := by
  have hv : (p.buf.getD (p.len - 1) 0 * 10 % 65536 + (c + 65536 - 0x30) % 65536) % 65536
      = (p.buf.getD (p.len - 1) 0 * 10 + (c - 0x30)) % 65536 := by omega
  simp only [VtParams.push_csi_char, firstByte_small c (by omega)]
  rw [if_neg (show ¬(c = 0x3B) by omega), if_neg (show ¬(p.len = 0) by omega), hv]

lemma push_values (p : VtParams) (v : Nat) (h16 : p.buf.length = 16)
    (hlt : p.len < 16) :
    (p.push v).len = p.len + 1 ∧ (p.push v).values = p.values ++ [v] := by
  unfold VtParams.push
  rw [if_neg (by omega)]
  refine ⟨rfl, ?_⟩
  show (p.buf.set p.len v).take (p.len + 1) = p.buf.take p.len ++ [v]
  exact take_succ_set_self p.buf p.len v (by omega)

/-- C4: during CSI/DCS parameter accumulation, an ASCII digit maps the last
parameter value v to `(10 * v + digit) % 2^16` (wraparound-modular, with all
other stored values untouched), a semicolon appends a new zero-valued element
(silently dropped at capacity 16), a digit arriving on an empty buffer first
initialises a zero element, and accumulation overflow is never signalled: the
`Param` action has no primary event, and `push_csi_char` is a total function
emitting nothing. -/
theorem csi_param_accumulation (p : VtParams) (c : Nat) (h16 : p.buf.length = 16)
    (hlen : p.len ≤ 16) :
    ((0x30 ≤ c ∧ c ≤ 0x39) →
      (0 < p.len →
        (p.push_csi_char c).len = p.len ∧
        (p.push_csi_char c).values =
          p.values.take (p.len - 1) ++
            [(p.values.getD (p.len - 1) 0 * 10 + (c - 0x30)) % 65536]) ∧
      (p.len = 0 →
        (p.push_csi_char c).len = 1 ∧
        (p.push_csi_char c).values = [(c - 0x30) % 65536])) ∧
    (c = 0x3B →
      (p.len < 16 →
        (p.push_csi_char c).len = p.len + 1 ∧
        (p.push_csi_char c).values = p.values ++ [0]) ∧
      (p.len = 16 → p.push_csi_char c = p)) ∧
    (∀ (m : VtMachine), m.action_event .Param c = none) := by
  refine ⟨?_, ?_, fun m => rfl⟩
  · rintro ⟨hc1, hc2⟩
    constructor
    · intro hpos
      rw [push_csi_char_digit p c hc1 hc2 hpos]
      refine ⟨rfl, ?_⟩
      have hgd : p.values.getD (p.len - 1) 0 = p.buf.getD (p.len - 1) 0 := by
        simp only [VtParams.values, List.getD_eq_getElem?_getD]
        rw [List.getElem?_take_of_lt (by omega)]
      have htk : p.values.take (p.len - 1) = p.buf.take (p.len - 1) := by
        simp only [VtParams.values]
        rw [List.take_take, Nat.min_eq_left (by omega)]
      rw [hgd, htk]
      simp only [VtParams.values]
      obtain ⟨k, hk⟩ : ∃ k, p.len = k + 1 := ⟨p.len - 1, by omega⟩
      rw [hk]
      simp only [Nat.add_sub_cancel]
      exact take_succ_set_self p.buf k _ (by omega)
    · intro hz
      have hp1 : p.push 0 = { buf := p.buf.set 0 0, len := 1 } := by
        unfold VtParams.push
        rw [if_neg (by omega), hz]
      have hcur : (p.buf.set 0 0).getD 0 0 = 0 := by
        rw [List.getD_eq_getElem?_getD, List.getElem?_set_self (by omega)]
        rfl
      simp only [VtParams.push_csi_char, firstByte_small c (by omega)]
      rw [if_neg (show ¬(c = 0x3B) by omega), if_pos hz, hp1]
      dsimp only
      rw [hcur]
      have hv : (0 * 10 % 65536 + (c + 65536 - 0x30) % 65536) % 65536
          = (c - 0x30) % 65536 := by omega
      rw [hv]
      refine ⟨rfl, ?_⟩
      simp only [VtParams.values]
      rw [List.set_set]
      simpa using take_succ_set_self p.buf 0 ((c - 0x30) % 65536) (by omega)
  · intro hsemi
    subst hsemi
    constructor
    · intro hlt
      rw [push_csi_char_semi p 0x3B rfl]
      exact push_values p 0 h16 hlt
    · intro hfull
      rw [push_csi_char_semi p 0x3B rfl]
      unfold VtParams.push
      rw [if_pos (by omega)]

/-- Witness for C4: accumulating the digit 9 onto a buffer holding 7000 yields
70009 reduced modulo 65536 in the last slot. -/
theorem csi_param_accumulation_witness :
    ((VtParams.new.push 7000).push_csi_char 0x39).len = (VtParams.new.push 7000).len ∧
      ((VtParams.new.push 7000).push_csi_char 0x39).values =
        (VtParams.new.push 7000).values.take ((VtParams.new.push 7000).len - 1) ++
          [((VtParams.new.push 7000).values.getD ((VtParams.new.push 7000).len - 1) 0
              * 10 + (0x39 - 0x30)) % 65536] :=
  ((csi_param_accumulation (VtParams.new.push 7000) 0x39 (by decide) (by decide)).1
    (by decide)).1 (by decide)

/-- Adjacent-pair discipline of a well-chunked event stream: a `PrintEnd` only
follows a `Print`, and a `Print` is followed by another `Print` or by a
`PrintEnd`. -/
def okPair (a b : VtEvent) : Prop :=
  (isPE b = true → isPr a = true) ∧ (isPr a = true → isPr b = true ∨ isPE b = true)

/-- Whether the last event of the list is a `Print`. -/
def endsPr (es : List VtEvent) : Bool :=
  match es.getLast? with
  | some e => isPr e
  | none => false

/-- The first event of the list is not a `PrintEnd`. -/
def headOK (es : List VtEvent) : Prop :=
  es.head? ≠ some VtEvent.PrintEnd

/-- Step invariant tying a machine to the trace emitted so far: the trace obeys
the pair discipline, does not start with `PrintEnd`, ends with a `Print` exactly
when the print-run flag is set, and the flag implies state `Literal`. -/
def StInv (m : VtMachine) (es : List VtEvent) : Prop :=
  List.Chain' okPair es ∧ headOK es ∧ endsPr es = m.in_literal_chunk ∧
    (m.in_literal_chunk = true → m.state = .Literal)

/-- A complete well-chunked trace: pair discipline, no leading `PrintEnd`, no
trailing `Print`. -/
def goodTrace (es : List VtEvent) : Prop :=
  List.Chain' okPair es ∧ headOK es ∧ endsPr es = false

lemma okPair_of_plain (a b : VtEvent) (ha : isPr a = false) (hb : plainEv b) :
    okPair a b := by
  constructor
  · intro hpe
    rw [hb.2] at hpe
    exact Bool.noConfusion hpe
  · intro hpr
    rw [ha] at hpr
    exact Bool.noConfusion hpr

lemma okPair_right_print (a : VtEvent) (c : Nat) : okPair a (VtEvent.Print c) := by
  constructor
  · intro hpe
    exact Bool.noConfusion hpe
  · intro _
    exact Or.inl rfl

lemma okPair_pe_left (b : VtEvent) (hb : isPE b = false) : okPair VtEvent.PrintEnd b := by
  constructor
  · intro hpe
    rw [hb] at hpe
    exact Bool.noConfusion hpe
  · intro hpr
    exact Bool.noConfusion hpr

lemma plain_chain (l : List VtEvent) (h : ∀ e ∈ l, plainEv e) :
    List.Chain' okPair l := by
  induction l with
  | nil => exact List.chain'_nil
  | cons a t ih =>
      rw [List.chain'_cons']
      refine ⟨?_, ih fun e he => h e (List.mem_cons_of_mem a he)⟩
      intro y hy
      exact okPair_of_plain a y (h a (List.mem_cons_self a t)).1
        (h y (List.mem_cons_of_mem a (List.mem_of_mem_head? hy)))

lemma endsPr_append (es new : List VtEvent) (h : new ≠ []) :
    endsPr (es ++ new) = endsPr new := by
  unfold endsPr
  rw [List.getLast?_append_of_ne_nil es h]

lemma endsPr_false_of_all (l : List VtEvent) (h : ∀ e ∈ l, isPr e = false) :
    endsPr l = false := by
  unfold endsPr
  cases hl : l.getLast? with
  | none => rfl
  | some e => exact h e (List.mem_of_mem_getLast? hl)

lemma endsPr_true_last (es : List VtEvent) (x : VtEvent) (hx : es.getLast? = some x)
    (h : endsPr es = true) : isPr x = true := by
  unfold endsPr at h
  rw [hx] at h
  exact h

lemma endsPr_false_last (es : List VtEvent) (x : VtEvent) (hx : es.getLast? = some x)
    (h : endsPr es = false) : isPr x = false := by
  unfold endsPr at h
  rw [hx] at h
  exact h

lemma stinv_append_plain (es new : List VtEvent) (hch : List.Chain' okPair es)
    (hhd : headOK es) (hend : endsPr es = false) (hpl : ∀ e ∈ new, plainEv e) :
    List.Chain' okPair (es ++ new) ∧ headOK (es ++ new) ∧
      endsPr (es ++ new) = false := by
  refine ⟨?_, ?_, ?_⟩
  · rw [List.chain'_append]
    refine ⟨hch, plain_chain new hpl, ?_⟩
    intro x hx y hy
    exact okPair_of_plain x y (endsPr_false_last es x hx hend)
      (hpl y (List.mem_of_mem_head? hy))
  · unfold headOK
    rw [List.head?_append]
    cases hh : es.head? with
    | some e =>
        simp only [Option.or_some]
        intro hc
        apply hhd
        rw [hh]
        exact hc
    | none =>
        simp only [Option.none_or]
        cases hn : new.head? with
        | none => simp
        | some e =>
            have hple := hpl e (List.mem_of_mem_head? (by rw [hn]; rfl))
            intro hc
            have he : e = VtEvent.PrintEnd := by
              injection hc with h1
            rw [he] at hple
            exact Bool.noConfusion hple.2
  · by_cases hn : new = []
    · rw [hn, List.append_nil]
      exact hend
    · rw [endsPr_append es new hn]
      exact endsPr_false_of_all new fun e he => (hpl e he).1

lemma stinv_append_pe (es rest : List VtEvent) (hch : List.Chain' okPair es)
    (hhd : headOK es) (hend : endsPr es = true) (hpl : ∀ e ∈ rest, plainEv e) :
    List.Chain' okPair (es ++ VtEvent.PrintEnd :: rest) ∧
      headOK (es ++ VtEvent.PrintEnd :: rest) ∧
      endsPr (es ++ VtEvent.PrintEnd :: rest) = false := by
  have hesne : es ≠ [] := by
    intro hnil
    rw [hnil] at hend
    exact Bool.noConfusion hend
  refine ⟨?_, ?_, ?_⟩
  · rw [List.chain'_append]
    refine ⟨hch, ?_, ?_⟩
    · rw [List.chain'_cons']
      refine ⟨?_, plain_chain rest hpl⟩
      intro y hy
      exact okPair_pe_left y (hpl y (List.mem_of_mem_head? hy)).2
    · intro x hx y hy
      have hy2 : y = VtEvent.PrintEnd := by
        have : (VtEvent.PrintEnd :: rest).head? = some VtEvent.PrintEnd := rfl
        rw [this] at hy
        injection hy with h1
        exact h1.symm
      subst hy2
      constructor
      · intro _
        exact endsPr_true_last es x hx hend
      · intro _
        exact Or.inr rfl
  · unfold headOK
    rw [List.head?_append_of_ne_nil es hesne]
    exact hhd
  · rw [endsPr_append es _ (by simp)]
    apply endsPr_false_of_all
    intro e he
    rcases List.mem_cons.mp he with h | h
    · rw [h]
      rfl
    · exact (hpl e h).1

lemma stinv_append_print (es : List VtEvent) (c : Nat)
    (hch : List.Chain' okPair es) (hhd : headOK es) :
    List.Chain' okPair (es ++ [VtEvent.Print c]) ∧
      headOK (es ++ [VtEvent.Print c]) ∧
      endsPr (es ++ [VtEvent.Print c]) = true := by
  refine ⟨?_, ?_, ?_⟩
  · rw [List.chain'_append]
    refine ⟨hch, List.chain'_singleton _, ?_⟩
    intro x _ y hy
    have hy2 : y = VtEvent.Print c := by
      have : ([VtEvent.Print c] : List VtEvent).head? = some (VtEvent.Print c) := rfl
      rw [this] at hy
      injection hy with h1
      exact h1.symm
    subst hy2
    exact okPair_right_print x c
  · unfold headOK
    rw [List.head?_append]
    cases hh : es.head? with
    | some e =>
        simp only [Option.or_some]
        intro hc
        apply hhd
        rw [hh]
        exact hc
    | none =>
        simp only [Option.none_or]
        intro hc
        have : VtEvent.Print c = VtEvent.PrintEnd := by
          injection hc with h1
        exact VtEvent.noConfusion this
  · rw [endsPr_append es _ (by simp)]
    rfl

lemma action_snd_none (m : VtMachine) (a : VtAction) (c : Nat) (ha : a ≠ .Print)
    (hf : m.in_literal_chunk = false) : (m.action a c).2 = none := by
  rw [action_spec_ne m a c ha]
  simp [hf]

lemma action_snd_pe (m : VtMachine) (a : VtAction) (c : Nat) (ha : a ≠ .Print)
    (hf : m.in_literal_chunk = true) :
    (m.action a c).2 = some VtEvent.PrintEnd := by
  rw [action_spec_ne m a c ha]
  simp [hf]

lemma just_action_events_plain (m : VtMachine) (a : VtAction) (c : Nat)
    (ha : a ≠ .Print) (hf : m.in_literal_chunk = false) :
    ∀ e ∈ (m.just_action a c).2, plainEv e := by
  intro e he
  unfold VtMachine.just_action at he
  rw [mem_transitionEvents] at he
  simp only [List.mem_cons, List.not_mem_nil, or_false] at he
  rcases he with h | h
  · rw [action_snd_none m a c ha hf] at h
    simp at h
  · exact action_event_plain _ a c e ha h.symm

lemma just_action_events_pe (m : VtMachine) (a : VtAction) (c : Nat)
    (ha : a ≠ .Print) (hf : m.in_literal_chunk = true) :
    ∃ rest, (m.just_action a c).2 = VtEvent.PrintEnd :: rest ∧
      ∀ e ∈ rest, plainEv e := by
  refine ⟨transitionEvents [(m.action a c).1.action_event a c], ?_, ?_⟩
  · simp only [VtMachine.just_action]
    rw [action_snd_pe m a c ha hf]
    simp [transitionEvents]
  · intro e he
    rw [mem_transitionEvents] at he
    simp only [List.mem_cons, List.not_mem_nil, or_false] at he
    exact action_event_plain _ a c e ha he.symm

lemma just_action_print_events (m : VtMachine) (c : Nat) :
    (m.just_action .Print c).2 = [VtEvent.Print c] := rfl

lemma just_action_print_fst (m : VtMachine) (c : Nat) :
    (m.just_action .Print c).1 = { m with in_literal_chunk := true } := rfl

lemma change_state_events_plain (m : VtMachine) (s : VtState) (t : VtAction)
    (c : Nat) (ht : t ≠ .Print) (hf : m.in_literal_chunk = false) :
    ∀ e ∈ (m.change_state s t c).2, plainEv e := by
  intro e he
  cases hea : VtMachine.state_entry_action s with
  | none =>
      simp only [VtMachine.change_state, hea] at he
      rw [mem_transitionEvents] at he
      simp only [List.mem_cons, List.not_mem_nil, or_false] at he
      rcases he with h | h | h | h | h
      · exact (exit_event_plain _ _ _ h.symm).1
      · simp at h
      · rw [action_snd_none { m with state := s } t c ht hf] at h
        simp at h
      · exact action_event_plain _ t c e ht h.symm
      · simp at h
  | some a =>
      have ha := entry_action_ne s a hea
      simp only [VtMachine.change_state, hea] at he
      rw [mem_transitionEvents] at he
      simp only [List.mem_cons, List.not_mem_nil, or_false] at he
      rcases he with h | h | h | h | h
      · exact (exit_event_plain _ _ _ h.symm).1
      · rw [action_snd_none { m with state := s } a c ha.1 hf] at h
        simp at h
      · have hx := action_snd_none (({ m with state := s }).action a c).1 t c ht
          (action_flag_of_ne { m with state := s } a c ha.1)
        rw [hx] at h
        simp at h
      · exact action_event_plain _ t c e ht h.symm
      · exact action_event_plain _ a c e ha.1 h.symm

lemma change_state_events_pe (m : VtMachine) (s : VtState) (t : VtAction)
    (c : Nat) (ht : t ≠ .Print) (hst : m.state = .Literal)
    (hf : m.in_literal_chunk = true) :
    ∃ rest, (m.change_state s t c).2 = VtEvent.PrintEnd :: rest ∧
      ∀ e ∈ rest, plainEv e := by
  have hexit : VtMachine.state_exit_event m.state c = none := by
    rw [hst]
    rfl
  cases hea : VtMachine.state_entry_action s with
  | none =>
      refine ⟨((({ m with state := s }).action t c).1.action_event t c).toList,
        ?_, ?_⟩
      · simp only [VtMachine.change_state, hea, hexit]
        rw [action_snd_pe { m with state := s } t c ht hf]
        cases hX : (({ m with state := s }).action t c).1.action_event t c <;>
          simp [transitionEvents, hX]
      · intro e he
        rw [Option.mem_toList] at he
        exact action_event_plain _ t c e ht (Option.mem_def.mp he)
  | some a =>
      have ha := entry_action_ne s a hea
      refine ⟨transitionEvents
          [((({ m with state := s }).action a c).1.action t c).1.action_event t c,
            ((({ m with state := s }).action a c).1.action t c).1.action_event a c],
        ?_, ?_⟩
      · simp only [VtMachine.change_state, hea, hexit]
        have hx := action_snd_none (({ m with state := s }).action a c).1 t c ht
          (action_flag_of_ne { m with state := s } a c ha.1)
        rw [action_snd_pe { m with state := s } a c ha.1 hf, hx]
        simp [transitionEvents]
      · intro e he
        rw [mem_transitionEvents] at he
        simp only [List.mem_cons, List.not_mem_nil, or_false] at he
        rcases he with h | h
        · exact action_event_plain _ t c e ht h.symm
        · exact action_event_plain _ a c e ha.1 h.symm

lemma stinv_step (m : VtMachine) (es : List VtEvent) (c : Nat) (h : StInv m es) :
    StInv (m.write_u8char c).1 (es ++ (m.write_u8char c).2) := by
  obtain ⟨hch, hhd, hend, hfs⟩ := h
  rcases write_u8char_cases m c with ⟨s, t, hd, hw⟩ | ⟨a, hd, hw⟩ | ⟨_, hw⟩ <;> rw [hw]
  · have ht := (dispatch_toState _ _ _ _ hd).1
    by_cases hf : m.in_literal_chunk = true
    · obtain ⟨rest, hre, hrp⟩ := change_state_events_pe m s t c ht (hfs hf) hf
      rw [hre]
      obtain ⟨h1, h2, h3⟩ := stinv_append_pe es rest hch hhd (hend.trans hf) hrp
      refine ⟨h1, h2, ?_, ?_⟩
      · rw [h3, change_state_flag m s t c ht]
      · rw [change_state_flag m s t c ht]
        intro hx
        exact Bool.noConfusion hx
    · have hf2 : m.in_literal_chunk = false := Bool.not_eq_true _ |>.mp hf
      obtain ⟨h1, h2, h3⟩ := stinv_append_plain es _ hch hhd (hend.trans hf2)
        (change_state_events_plain m s t c ht hf2)
      refine ⟨h1, h2, ?_, ?_⟩
      · rw [h3, change_state_flag m s t c ht]
      · rw [change_state_flag m s t c ht]
        intro hx
        exact Bool.noConfusion hx
  · by_cases hp : a = .Print
    · subst hp
      have hst : m.state = .Literal := (dispatch_stay _ _ _ hd).2 rfl
      rw [just_action_print_events]
      obtain ⟨h1, h2, h3⟩ := stinv_append_print es c hch hhd
      refine ⟨h1, h2, ?_, ?_⟩
      · rw [h3, just_action_print_fst]
      · intro _
        rw [just_action_state]
        exact hst
    · by_cases hf : m.in_literal_chunk = true
      · obtain ⟨rest, hre, hrp⟩ := just_action_events_pe m a c hp hf
        rw [hre]
        obtain ⟨h1, h2, h3⟩ := stinv_append_pe es rest hch hhd (hend.trans hf) hrp
        refine ⟨h1, h2, ?_, ?_⟩
        · rw [h3, just_action_flag_ne m a c hp]
        · rw [just_action_flag_ne m a c hp]
          intro hx
          exact Bool.noConfusion hx
      · have hf2 : m.in_literal_chunk = false := Bool.not_eq_true _ |>.mp hf
        obtain ⟨h1, h2, h3⟩ := stinv_append_plain es _ hch hhd (hend.trans hf2)
          (just_action_events_plain m a c hp hf2)
        refine ⟨h1, h2, ?_, ?_⟩
        · rw [h3, just_action_flag_ne m a c hp]
        · rw [just_action_flag_ne m a c hp]
          intro hx
          exact Bool.noConfusion hx
  · rw [List.append_nil]
    exact ⟨hch, hhd, hend, hfs⟩

lemma stinv_new : StInv VtMachine.new [] := by
  refine ⟨List.chain'_nil, ?_, rfl, ?_⟩
  · unfold headOK
    simp
  · intro _
    rfl

lemma stinv_writeAll (m : VtMachine) (es : List VtEvent) (cs : List Nat)
    (h : StInv m es) : StInv (m.writeAll cs).1 (es ++ (m.writeAll cs).2) := by
  induction cs generalizing m es with
  | nil =>
      simp only [VtMachine.writeAll]
      simpa using h
  | cons c rest ih =>
      simp only [VtMachine.writeAll]
      have h2 := ih (m.write_u8char c).1 (es ++ (m.write_u8char c).2)
        (stinv_step m es c h)
      rw [← List.append_assoc]
      exact h2

lemma write_end_snd (m : VtMachine) :
    (m.write_end).2 = if m.in_literal_chunk = true then [VtEvent.PrintEnd] else [] := by
  unfold VtMachine.write_end
  dsimp only
  by_cases hf : m.in_literal_chunk = true
  · rw [if_pos hf, if_pos hf]
  · rw [if_neg hf, if_neg hf]

lemma stinv_end_good (m : VtMachine) (es : List VtEvent) (h : StInv m es) :
    goodTrace (es ++ (m.write_end).2) := by
  obtain ⟨hch, hhd, hend, _⟩ := h
  rw [write_end_snd]
  by_cases hf : m.in_literal_chunk = true
  · rw [if_pos hf]
    have hx := stinv_append_pe es [] hch hhd (hend.trans hf) (by intro e he; simp at he)
    exact ⟨hx.1, hx.2.1, hx.2.2⟩
  · rw [if_neg hf, List.append_nil]
    exact ⟨hch, hhd, hend.trans (Bool.not_eq_true _ |>.mp hf)⟩

lemma runEnd_good (cs : List Nat) : goodTrace (runEnd cs) := by
  have h1 := stinv_writeAll VtMachine.new [] cs stinv_new
  rw [List.nil_append] at h1
  exact stinv_end_good _ _ h1

lemma isPE_iff (e : VtEvent) : isPE e = true ↔ e = VtEvent.PrintEnd := by
  cases e <;> simp [isPE]

/-- C1: in the full trace of any stream (fresh machine, a sequence of scalars,
then `write_end`), `PrintEnd` appears exactly once immediately after each
maximal run of `Print` events and nowhere else: (1) every `PrintEnd` directly
follows a `Print` (so it never opens the trace and never follows another
`PrintEnd`), (2) the trace never opens with `PrintEnd`, and (3) every `Print`
is directly followed by another `Print` or by a `PrintEnd` — in particular a
trailing run is closed by `write_end`, and when a run is ended by a scalar
whose dispatch emits a primary event the `PrintEnd` is emitted before that
event, since it directly follows the last `Print`. -/
theorem print_chunk_boundaries (cs : List Nat) :
    (∀ (i : Nat) (h2 : i + 1 < (runEnd cs).length),
        (runEnd cs).get ⟨i + 1, h2⟩ = VtEvent.PrintEnd →
        isPr ((runEnd cs).get ⟨i, Nat.lt_of_succ_lt h2⟩) = true) ∧
      (∀ h0 : 0 < (runEnd cs).length,
        (runEnd cs).get ⟨0, h0⟩ ≠ VtEvent.PrintEnd) ∧
      (∀ (i : Nat) (hi : i < (runEnd cs).length),
        isPr ((runEnd cs).get ⟨i, hi⟩) = true →
        ∃ h2 : i + 1 < (runEnd cs).length,
          isPr ((runEnd cs).get ⟨i + 1, h2⟩) = true ∨
            (runEnd cs).get ⟨i + 1, h2⟩ = VtEvent.PrintEnd) := by
  obtain ⟨hch, hhd, hend⟩ := runEnd_good cs
  rw [List.chain'_iff_get] at hch
  refine ⟨?_, ?_, ?_⟩
  · intro i h2 hpe
    have hok := hch i (by omega)
    apply hok.1
    rw [isPE_iff]
    exact hpe
  · intro h0 hc
    apply hhd
    rw [List.head?_eq_getElem?, List.getElem?_eq_getElem h0, ← hc]
    rfl
  · intro i hi hpr
    by_cases h2 : i + 1 < (runEnd cs).length
    · refine ⟨h2, ?_⟩
      have hok := hch i (by omega)
      rcases hok.2 hpr with h | h
      · exact Or.inl h
      · exact Or.inr ((isPE_iff _).mp h)
    · exfalso
      have hil : i = (runEnd cs).length - 1 := by omega
      subst hil
      have hlast : (runEnd cs).getLast? =
          some ((runEnd cs).get ⟨(runEnd cs).length - 1, hi⟩) := by
        rw [List.getLast?_eq_getElem?, List.getElem?_eq_getElem (by omega)]
        rfl
      have hx := endsPr_false_last _ _ hlast hend
      rw [hpr] at hx
      exact Bool.noConfusion hx

/-- Witness for C1 on the one-scalar stream containing a single printable
character: its trace is a `Print` followed by the `PrintEnd` from `write_end`. -/
theorem print_chunk_boundaries_witness :
    isPr ((runEnd [0x61]).get ⟨0, by decide⟩) = true :=
  (print_chunk_boundaries [0x61]).1 0 (by decide) (by decide)
